import Mathlib

/-!
# Verification of the auth-action rate limiter core

A shallow embedding of the library's core modules — token bucket
(`tokenBucket.ts`), decision combination (`decision.ts`), key builder
(`keyBuilder.ts`), policy engine (`policyEngine.ts`) and the bounded
in-memory store (`memoryStore.ts`) — together with theorems checking the
natural-language specification against the code.

Modelling conventions:
* JavaScript numbers are modelled by `ℚ` (the spec's token accounting is
  exact fractional arithmetic; all quantities occurring in the claims stay
  within exact rational arithmetic).
* JavaScript strings are modelled by Lean `String` (a wrapper around
  `List Char`); the key builder's split/join logic is embedded directly on
  the character lists.
* `Promise` rejection / thrown store errors are modelled with `Except`:
  a store operation takes a state and returns `Except String α × σ`, so
  mutations committed before a throw survive, as with a mutable JS store.
* JS `Map` (insertion ordered) is modelled by an association list with
  no duplicate keys; `Record<string, string>` objects by association
  lists with JS property-insertion semantics (`recordSet`).
-/

/-! ## Data model (`types.ts`) -/

/-- `TokenBucketState` from `types.ts`. -/
structure TokenBucketState where
  tokens : ℚ
  lastRefillTime : ℚ
  createdAt : ℚ
  expiresAt : ℚ
deriving DecidableEq, Repr

/-- `TokenBucketConfig` from `tokenBucket.ts`. -/
structure TokenBucketConfig where
  capacity : ℚ
  refillTokens : ℚ
  refillIntervalMs : ℚ
deriving DecidableEq, Repr

/-- `ConsumeResult` from `types.ts`. -/
structure ConsumeResult where
  allowed : Bool
  remainingTokens : ℚ
  retryAfterMs : ℚ
  bucketState : TokenBucketState
deriving DecidableEq, Repr

/-! ## Token bucket (`tokenBucket.ts`) -/

/-- `Number.MAX_SAFE_INTEGER`, the "unbounded" retry sentinel. -/
def maxSafeInteger : ℚ := 9007199254740991

/-- `calculateRefillTokens` from `tokenBucket.ts`. -/
def calculateRefillTokens (elapsedMs : ℚ) (config : TokenBucketConfig) : ℚ :=
  if elapsedMs ≤ 0 ∨ config.refillIntervalMs ≤ 0 then 0
  else
    let intervals := elapsedMs / config.refillIntervalMs
    intervals * config.refillTokens

/-- `refillBucket` from `tokenBucket.ts`. -/
def refillBucket (state : TokenBucketState) (config : TokenBucketConfig)
    (currentTime : ℚ) : TokenBucketState :=
  let elapsedMs := currentTime - state.lastRefillTime
  if elapsedMs ≤ 0 then state
  else
    let tokensToAdd := calculateRefillTokens elapsedMs config
    let newTokens := min config.capacity (state.tokens + tokensToAdd)
    { state with tokens := newTokens, lastRefillTime := currentTime }

/-- `createBucket` from `tokenBucket.ts`. -/
def createBucket (config : TokenBucketConfig) (currentTime ttlMs : ℚ) :
    TokenBucketState :=
  { tokens := config.capacity
    lastRefillTime := currentTime
    createdAt := currentTime
    expiresAt := currentTime + ttlMs }

/-- `calculateRetryAfterMs` from `tokenBucket.ts`. -/
def calculateRetryAfterMs (tokensNeeded : ℚ) (config : TokenBucketConfig) : ℚ :=
  if tokensNeeded ≤ 0 then 0
  else if config.refillTokens ≤ 0 ∨ config.refillIntervalMs ≤ 0 then
    maxSafeInteger
  else
    let intervalsNeeded := tokensNeeded / config.refillTokens
    ((⌈intervalsNeeded * config.refillIntervalMs⌉ : ℤ) : ℚ)

/-- `consumeTokens` from `tokenBucket.ts`. -/
def consumeTokens (state : TokenBucketState) (config : TokenBucketConfig)
    (cost currentTime ttlMs : ℚ) : ConsumeResult :=
  let refilledState := refillBucket state config currentTime
  if refilledState.tokens ≥ cost then
    let newState : TokenBucketState :=
      { refilledState with
          tokens := refilledState.tokens - cost
          expiresAt := currentTime + ttlMs }
    { allowed := true
      remainingTokens := newState.tokens
      retryAfterMs := 0
      bucketState := newState }
  else
    let tokensNeeded := cost - refilledState.tokens
    let retryAfterMs := calculateRetryAfterMs tokensNeeded config
    let updatedState : TokenBucketState :=
      { refilledState with expiresAt := currentTime + ttlMs }
    { allowed := false
      remainingTokens := refilledState.tokens
      retryAfterMs := retryAfterMs
      bucketState := updatedState }

/-- `isBucketExpired` from `tokenBucket.ts`. -/
def isBucketExpired (state : TokenBucketState) (currentTime : ℚ) : Bool :=
  currentTime ≥ state.expiresAt

unseal Rat.add Rat.sub Rat.mul Rat.inv in
example :
    (consumeTokens ⟨10, 0, 0, 5000⟩ ⟨10, 5, 1000⟩ 1 0 5000).remainingTokens
      = 9 := by decide

unseal Rat.add Rat.sub Rat.mul Rat.inv in
example :
    (consumeTokens ⟨0, 0, 0, 5000⟩ ⟨10, 5, 1000⟩ 1 0 5000).retryAfterMs
      = 200 := by decide

/-! ## Claim C2: exact consume semantics -/

/-- **C2.** `consumeTokens` first refills, then allows exactly when the
refilled token count is at least `cost`; on success the new token count is
exactly `tokens_after_refill − cost` and `retryAfterMs = 0`; on denial the
tokens are left unchanged and
`retryAfterMs = ⌈(cost − tokens_after_refill) / refillTokens * refillIntervalMs⌉`,
except that non-positive `refillTokens` or `refillIntervalMs` yields the
unbounded sentinel; in both cases the resulting `expiresAt` is
`currentTime + ttlMs`. -/
theorem consumeTokens_spec (state : TokenBucketState) (config : TokenBucketConfig)
    (cost currentTime ttlMs : ℚ) :
    (consumeTokens state config cost currentTime ttlMs).allowed
        = decide ((refillBucket state config currentTime).tokens ≥ cost) ∧
    (consumeTokens state config cost currentTime ttlMs).bucketState.tokens
        = (if (refillBucket state config currentTime).tokens ≥ cost
           then (refillBucket state config currentTime).tokens - cost
           else (refillBucket state config currentTime).tokens) ∧
    (consumeTokens state config cost currentTime ttlMs).retryAfterMs
        = (if (refillBucket state config currentTime).tokens ≥ cost then 0
           else if config.refillTokens ≤ 0 ∨ config.refillIntervalMs ≤ 0
           then maxSafeInteger
           else ((⌈(cost - (refillBucket state config currentTime).tokens)
                    / config.refillTokens * config.refillIntervalMs⌉ : ℤ) : ℚ)) ∧
    (consumeTokens state config cost currentTime ttlMs).bucketState.expiresAt
        = currentTime + ttlMs := by
  unfold consumeTokens calculateRetryAfterMs
  by_cases h : (refillBucket state config currentTime).tokens ≥ cost
  · simp [h]
  · have hpos : ¬ (cost - (refillBucket state config currentTime).tokens ≤ 0) := by
      intro hle
      exact h (by linarith)
    simp [h, hpos]

/-! ## Claim C4: refill safety -/

/-- **C4.** For a state within capacity and a sane config
(`refillTokens ≥ 0`, `refillIntervalMs > 0`), `refillBucket` never exceeds
`capacity`, never decreases the token count, leaves the state unchanged when
`elapsed = currentTime − lastRefillTime ≤ 0`, advances `lastRefillTime` to
`currentTime` exactly when `elapsed > 0`, and in that case adds
`(elapsed / refillIntervalMs) * refillTokens` tokens, capped at capacity. -/
theorem refillBucket_spec (state : TokenBucketState) (config : TokenBucketConfig)
    (currentTime : ℚ)
    (hcap : state.tokens ≤ config.capacity)
    (hrt : 0 ≤ config.refillTokens)
    (hri : 0 < config.refillIntervalMs) :
    (refillBucket state config currentTime).tokens ≤ config.capacity ∧
    state.tokens ≤ (refillBucket state config currentTime).tokens ∧
    (currentTime - state.lastRefillTime ≤ 0 →
      refillBucket state config currentTime = state) ∧
    ((refillBucket state config currentTime).lastRefillTime =
      if 0 < currentTime - state.lastRefillTime then currentTime
      else state.lastRefillTime) ∧
    (0 < currentTime - state.lastRefillTime →
      (refillBucket state config currentTime).tokens =
        min config.capacity
          (state.tokens +
            (currentTime - state.lastRefillTime) / config.refillIntervalMs
              * config.refillTokens)) := by
  by_cases h : currentTime - state.lastRefillTime ≤ 0
  · have hrb : refillBucket state config currentTime = state := by
      unfold refillBucket
      simp [h]
    rw [hrb]
    exact ⟨hcap, le_refl _, fun _ => rfl, by simp [not_lt.mpr h], fun hlt => absurd h (not_le.mpr hlt)⟩
  · have hlt : 0 < currentTime - state.lastRefillTime := lt_of_not_le h
    have hii : ¬ config.refillIntervalMs ≤ 0 := not_le.mpr hri
    have hadd : 0 ≤ (currentTime - state.lastRefillTime) / config.refillIntervalMs
        * config.refillTokens :=
      mul_nonneg (div_nonneg hlt.le hri.le) hrt
    have hrb : refillBucket state config currentTime =
        { state with
            tokens := min config.capacity
              (state.tokens +
                (currentTime - state.lastRefillTime) / config.refillIntervalMs
                  * config.refillTokens)
            lastRefillTime := currentTime } := by
      unfold refillBucket calculateRefillTokens
      simp [h, hii]
    rw [hrb]
    refine ⟨min_le_left _ _, le_min hcap (by linarith), fun hle => absurd hle h, ?_, fun _ => rfl⟩
    rw [if_pos hlt]

/-- Concrete instantiation of `refillBucket_spec`: a bucket with 3 tokens,
capacity 10, refilling 5 tokens per second, observed 400 ms after its last
refill. -/
theorem refillBucket_spec_witness :
    ((3 : ℚ) ≤ 10 ∧ (0 : ℚ) ≤ 5 ∧ (0 : ℚ) < 1000) ∧
    ((refillBucket ⟨3, 0, 0, 5000⟩ ⟨10, 5, 1000⟩ 400).tokens ≤ (10 : ℚ) ∧
      (3 : ℚ) ≤ (refillBucket ⟨3, 0, 0, 5000⟩ ⟨10, 5, 1000⟩ 400).tokens ∧
      ((400 : ℚ) - 0 ≤ 0 → refillBucket ⟨3, 0, 0, 5000⟩ ⟨10, 5, 1000⟩ 400 = ⟨3, 0, 0, 5000⟩) ∧
      ((refillBucket ⟨3, 0, 0, 5000⟩ ⟨10, 5, 1000⟩ 400).lastRefillTime =
        if (0 : ℚ) < 400 - 0 then 400 else 0) ∧
      ((0 : ℚ) < 400 - 0 →
        (refillBucket ⟨3, 0, 0, 5000⟩ ⟨10, 5, 1000⟩ 400).tokens =
          min 10 (3 + (400 - 0) / 1000 * 5)) ∧
      True) := by
  refine ⟨⟨by norm_num, by norm_num, by norm_num⟩, ?_⟩
  have h := refillBucket_spec ⟨3, 0, 0, 5000⟩ ⟨10, 5, 1000⟩ 400
    (by norm_num) (by norm_num) (by norm_num)
  exact ⟨h.1, h.2.1, h.2.2.1, h.2.2.2.1, h.2.2.2.2, trivial⟩

/-! ## Decision model (`decision.ts`, `types.ts`) -/

/-- `DecisionOutcome` from `types.ts`. -/
inductive DecisionOutcome where
  | ALLOWED
  | BLOCKED
  | CHALLENGE
deriving DecidableEq, Repr

/-- `RuleResult` from `types.ts` (`challenge?` as `Option`). -/
structure RuleResult where
  ruleName : String
  key : String
  allowed : Bool
  outcome : DecisionOutcome
  retryAfterMs : ℚ
  remainingTokens : ℚ
  challenge : Option String := none
deriving DecidableEq, Repr

/-- `RateLimitDecision` from `types.ts`; the optional `challenge` is an
`Option` and the optional `failedDueToError` flag a `Bool` (absent ↦
`false`, matching its only use as a truthiness test). `keys` is a
`Record<string, string>` modelled as an insertion-ordered association
list. -/
structure RateLimitDecision where
  allowed : Bool
  action : String
  outcome : DecisionOutcome
  retryAfterMs : ℚ
  ruleResults : List RuleResult
  keys : List (String × String)
  challenge : Option String := none
  failedDueToError : Bool := false
deriving DecidableEq, Repr

/-- JS string truthiness of a `string | undefined` value: `undefined` and
`""` are falsy. -/
def truthy : Option String → Bool
  | none => false
  | some s => s ≠ ""

/-- JS `a || b` on `string | undefined` values. -/
def jsOrElse (a b : Option String) : Option String :=
  if truthy a then a else b

/-- Accumulator of `combineRuleResults`' single scan over the rule results
(the mutable locals `hasBlock`, `hasChallenge`, `maxRetryAfterMs`,
`challengeHint` of `decision.ts`). -/
structure CombineScan where
  hasBlock : Bool
  hasChallenge : Bool
  maxRetryAfterMs : ℚ
  challengeHint : Option String
deriving DecidableEq, Repr

/-- One iteration of the `for (const result of ruleResults)` loop in
`combineRuleResults`. -/
def combineStep (acc : CombineScan) (result : RuleResult) : CombineScan :=
  if result.outcome = .BLOCKED then
    { acc with
        hasBlock := true
        maxRetryAfterMs := max acc.maxRetryAfterMs result.retryAfterMs }
  else if result.outcome = .CHALLENGE then
    { acc with
        hasChallenge := true
        challengeHint := jsOrElse acc.challengeHint result.challenge }
  else acc

/-- `combineRuleResults` from `decision.ts`. -/
def combineRuleResults (action : String) (ruleResults : List RuleResult)
    (keys : List (String × String)) : RateLimitDecision :=
  if ruleResults.isEmpty then
    { allowed := true
      action := action
      outcome := .ALLOWED
      retryAfterMs := 0
      ruleResults := []
      keys := keys }
  else
    let scan := ruleResults.foldl combineStep ⟨false, false, 0, none⟩
    let outcome : DecisionOutcome :=
      if scan.hasBlock then .BLOCKED
      else if scan.hasChallenge then .CHALLENGE
      else .ALLOWED
    let allowed : Bool := if scan.hasBlock then false else true
    let decision : RateLimitDecision :=
      { allowed := allowed
        action := action
        outcome := outcome
        retryAfterMs := scan.maxRetryAfterMs
        ruleResults := ruleResults
        keys := keys }
    if truthy scan.challengeHint then
      { decision with challenge := scan.challengeHint }
    else decision

/-- `createErrorDecision` from `decision.ts` (`FailMode` as a `Bool` flag
`failOpen`, true for `'open'`). -/
def createErrorDecision (action : String) (failOpen : Bool)
    (errMessage : String) : RateLimitDecision :=
  let allowed := failOpen
  let outcome : DecisionOutcome := if allowed then .ALLOWED else .BLOCKED
  { allowed := allowed
    action := action
    outcome := outcome
    retryAfterMs := if allowed then 0 else 60000
    ruleResults :=
      [{ ruleName := "store_error"
         key := "error"
         allowed := allowed
         outcome := outcome
         retryAfterMs := if allowed then 0 else 60000
         remainingTokens := 0
         challenge := some ("Store error: " ++ errMessage) }]
    keys := []
    failedDueToError := true }

/-- `createAllowedDecision` from `decision.ts`. -/
def createAllowedDecision (action : String) : RateLimitDecision :=
  { allowed := true
    action := action
    outcome := .ALLOWED
    retryAfterMs := 0
    ruleResults := []
    keys := [] }

/-- The claim's reading of the combined `challenge` field: the first
non-empty challenge hint of the rule results, in list order. -/
def firstNonEmptyChallenge : List RuleResult → Option String
  | [] => none
  | r :: rs => if truthy r.challenge then r.challenge else firstNonEmptyChallenge rs

/-- The retry accumulation of the scan, restricted to its own effect:
folding `max` over the BLOCKED results from a seed. -/
def blockedMaxFold (m : ℚ) : List RuleResult → ℚ
  | [] => m
  | r :: rs =>
    blockedMaxFold (if r.outcome = .BLOCKED then max m r.retryAfterMs else m) rs

/-- The challenge-hint accumulation of the scan, restricted to its own
effect: JS `h = h || r.challenge` over the CHALLENGE results. -/
def challengeHintFold (h : Option String) : List RuleResult → Option String
  | [] => h
  | r :: rs =>
    challengeHintFold (if r.outcome = .CHALLENGE then jsOrElse h r.challenge else h) rs

theorem combineScan_hasBlock (rs : List RuleResult) (a : CombineScan) :
    (rs.foldl combineStep a).hasBlock
      = (a.hasBlock || rs.any fun r => r.outcome == .BLOCKED) := by
  induction rs generalizing a with
  | nil => simp
  | cons r rs ih =>
    simp only [List.foldl_cons, ih, List.any_cons]
    cases hr : r.outcome <;>
      simp [combineStep, hr, Bool.or_assoc] <;> rfl

theorem combineScan_hasChallenge (rs : List RuleResult) (a : CombineScan) :
    (rs.foldl combineStep a).hasChallenge
      = (a.hasChallenge || rs.any fun r => r.outcome == .CHALLENGE) := by
  induction rs generalizing a with
  | nil => simp
  | cons r rs ih =>
    simp only [List.foldl_cons, ih, List.any_cons]
    cases hr : r.outcome <;>
      simp [combineStep, hr, Bool.or_assoc] <;> rfl

theorem combineScan_maxRetry (rs : List RuleResult) (a : CombineScan) :
    (rs.foldl combineStep a).maxRetryAfterMs = blockedMaxFold a.maxRetryAfterMs rs := by
  induction rs generalizing a with
  | nil => rfl
  | cons r rs ih =>
    simp only [List.foldl_cons, ih, blockedMaxFold]
    cases hr : r.outcome <;> simp [combineStep, hr]

theorem combineScan_hint (rs : List RuleResult) (a : CombineScan) :
    (rs.foldl combineStep a).challengeHint = challengeHintFold a.challengeHint rs := by
  induction rs generalizing a with
  | nil => rfl
  | cons r rs ih =>
    simp only [List.foldl_cons, ih, challengeHintFold]
    cases hr : r.outcome <;> simp [combineStep, hr]

theorem blockedMaxFold_le_seed (rs : List RuleResult) (m : ℚ) :
    m ≤ blockedMaxFold m rs := by
  induction rs generalizing m with
  | nil => exact le_refl m
  | cons r rs ih =>
    refine le_trans ?_ (ih _)
    by_cases hr : r.outcome = .BLOCKED <;> simp [hr, le_max_left]

theorem blockedMaxFold_ge_mem (rs : List RuleResult) (m : ℚ) :
    ∀ r ∈ rs, r.outcome = .BLOCKED → r.retryAfterMs ≤ blockedMaxFold m rs := by
  induction rs generalizing m with
  | nil => intro r hr; simp at hr
  | cons q rs ih =>
    intro r hr hb
    rcases List.mem_cons.mp hr with h | h
    · subst h
      simp only [blockedMaxFold, hb, if_pos]
      exact le_trans (le_max_right _ _) (blockedMaxFold_le_seed _ _)
    · exact ih _ r h hb

theorem blockedMaxFold_attained (rs : List RuleResult) (m : ℚ) :
    blockedMaxFold m rs = m ∨
      ∃ r ∈ rs, r.outcome = .BLOCKED ∧ blockedMaxFold m rs = r.retryAfterMs := by
  induction rs generalizing m with
  | nil => exact Or.inl rfl
  | cons q rs ih =>
    by_cases hq : q.outcome = .BLOCKED
    · simp only [blockedMaxFold, hq, if_pos]
      rcases ih (max m q.retryAfterMs) with h | ⟨r, hmem, hb, heq⟩
      · rcases max_choice m q.retryAfterMs with hm | hm
        · exact Or.inl (h.trans hm)
        · exact Or.inr ⟨q, List.mem_cons_self q rs, hq, h.trans hm⟩
      · exact Or.inr ⟨r, List.mem_cons_of_mem q hmem, hb, heq⟩
    · simp only [blockedMaxFold, hq, ite_false]
      rcases ih m with h | ⟨r, hmem, hb, heq⟩
      · exact Or.inl h
      · exact Or.inr ⟨r, List.mem_cons_of_mem q hmem, hb, heq⟩

theorem challengeHintFold_sticky (rs : List RuleResult) (h : Option String)
    (ht : truthy h = true) : challengeHintFold h rs = h := by
  induction rs with
  | nil => rfl
  | cons r rs ih =>
    simp only [challengeHintFold, jsOrElse, ht, if_pos, ite_self]
    exact ih

theorem challengeHintFold_first :
    ∀ (rs : List RuleResult) (h : Option String), truthy h = false →
    (∀ r ∈ rs, truthy r.challenge = true → r.outcome = .CHALLENGE) →
    (if truthy (challengeHintFold h rs) then challengeHintFold h rs else none)
      = firstNonEmptyChallenge rs := by
  intro rs
  induction rs with
  | nil =>
    intro h hf _
    simp [challengeHintFold, firstNonEmptyChallenge, hf]
  | cons r rs ih =>
    intro h hf hhint
    have hmem : ∀ q ∈ rs, truthy q.challenge = true → q.outcome = .CHALLENGE :=
      fun q hq => hhint q (List.mem_cons_of_mem r hq)
    have hjs : jsOrElse h r.challenge = r.challenge := by simp [jsOrElse, hf]
    by_cases hrc : truthy r.challenge = true
    · have hout : r.outcome = .CHALLENGE := hhint r (List.mem_cons_self r rs) hrc
      simp only [challengeHintFold, hout, if_pos, hjs]
      rw [challengeHintFold_sticky rs r.challenge hrc]
      simp [firstNonEmptyChallenge, hrc]
    · have hrc' : truthy r.challenge = false := by
        cases hx : truthy r.challenge
        · rfl
        · exact absurd hx hrc
      have hfirst : firstNonEmptyChallenge (r :: rs) = firstNonEmptyChallenge rs := by
        simp [firstNonEmptyChallenge, hrc']
      rw [hfirst]
      by_cases hout : r.outcome = .CHALLENGE
      · simp only [challengeHintFold, hout, if_pos, hjs]
        exact ih r.challenge hrc' hmem
      · simp only [challengeHintFold, hout, ite_false]
        exact ih h hf hmem

theorem combineRuleResults_fields (action : String) (rs : List RuleResult)
    (keys : List (String × String)) (hne : rs ≠ []) :
    (combineRuleResults action rs keys).outcome
        = (if rs.any (fun r => r.outcome == .BLOCKED) then .BLOCKED
           else if rs.any (fun r => r.outcome == .CHALLENGE) then .CHALLENGE
           else .ALLOWED) ∧
    (combineRuleResults action rs keys).allowed
        = !(rs.any fun r => r.outcome == .BLOCKED) ∧
    (combineRuleResults action rs keys).retryAfterMs = blockedMaxFold 0 rs ∧
    (combineRuleResults action rs keys).challenge
        = (if truthy (challengeHintFold none rs) then challengeHintFold none rs
           else none) := by
  obtain ⟨x, xs, rfl⟩ := List.exists_cons_of_ne_nil hne
  have hB := combineScan_hasBlock (x :: xs) ⟨false, false, 0, none⟩
  have hC := combineScan_hasChallenge (x :: xs) ⟨false, false, 0, none⟩
  have hM := combineScan_maxRetry (x :: xs) ⟨false, false, 0, none⟩
  have hH := combineScan_hint (x :: xs) ⟨false, false, 0, none⟩
  simp only [Bool.false_or] at hB hC hM hH
  unfold combineRuleResults
  simp only [List.isEmpty_cons, Bool.false_eq_true, if_false, ite_false, hB, hC, hM, hH]
  by_cases hh : truthy (challengeHintFold none (x :: xs)) = true <;>
    by_cases hb : (x :: xs).any (fun r => r.outcome == .BLOCKED) = true <;>
      by_cases hc : (x :: xs).any (fun r => r.outcome == .CHALLENGE) = true <;>
        simp [hh, hb, hc]

/-! ## Claim C1: AND semantics with most-restrictive-wins -/

/-- **C1.** `combineRuleResults` implements AND / most-restrictive-wins
semantics. The hypotheses are the `RuleResult` well-formedness invariants
(retry delays are non-negative; a challenge hint is only carried by a
CHALLENGE result), which hold of every rule result the engine produces.
An empty list yields ALLOWED/`allowed`/`retryAfterMs = 0`; a BLOCKED
member forces BLOCKED, `allowed = false` and `retryAfterMs` the maximum
over the BLOCKED members (stated as: attained at one and an upper bound
for all); otherwise a CHALLENGE member forces CHALLENGE, `allowed = true`
and `challenge` the first non-empty hint in list order; otherwise
ALLOWED/`allowed = true`/`retryAfterMs = 0`. -/
theorem combineRuleResults_and_semantics (action : String) (rs : List RuleResult)
    (keys : List (String × String))
    (hretry : ∀ r ∈ rs, 0 ≤ r.retryAfterMs)
    (hhint : ∀ r ∈ rs, truthy r.challenge = true → r.outcome = .CHALLENGE) :
    (rs = [] →
      (combineRuleResults action rs keys).outcome = .ALLOWED ∧
      (combineRuleResults action rs keys).allowed = true ∧
      (combineRuleResults action rs keys).retryAfterMs = 0) ∧
    ((∃ r ∈ rs, r.outcome = .BLOCKED) →
      (combineRuleResults action rs keys).outcome = .BLOCKED ∧
      (combineRuleResults action rs keys).allowed = false ∧
      (∃ r ∈ rs, r.outcome = .BLOCKED ∧
        (combineRuleResults action rs keys).retryAfterMs = r.retryAfterMs) ∧
      (∀ r ∈ rs, r.outcome = .BLOCKED →
        r.retryAfterMs ≤ (combineRuleResults action rs keys).retryAfterMs)) ∧
    ((∀ r ∈ rs, r.outcome ≠ .BLOCKED) → (∃ r ∈ rs, r.outcome = .CHALLENGE) →
      (combineRuleResults action rs keys).outcome = .CHALLENGE ∧
      (combineRuleResults action rs keys).allowed = true ∧
      (combineRuleResults action rs keys).challenge = firstNonEmptyChallenge rs) ∧
    ((∀ r ∈ rs, r.outcome ≠ .BLOCKED) → (∀ r ∈ rs, r.outcome ≠ .CHALLENGE) →
      (combineRuleResults action rs keys).outcome = .ALLOWED ∧
      (combineRuleResults action rs keys).allowed = true ∧
      (combineRuleResults action rs keys).retryAfterMs = 0) := by
  by_cases hemp : rs = []
  · subst hemp
    refine ⟨fun _ => ?_, fun h => ?_, fun _ h => ?_, fun _ _ => ?_⟩
    · exact ⟨rfl, rfl, rfl⟩
    · simp at h
    · simp at h
    · exact ⟨rfl, rfl, rfl⟩
  · obtain ⟨hout, hallow, hretryEq, hchal⟩ :=
      combineRuleResults_fields action rs keys hemp
    refine ⟨fun h => absurd h hemp, fun hb => ?_, fun hnb hc => ?_, fun hnb hnc => ?_⟩
    · obtain ⟨r0, hr0, hr0b⟩ := hb
      have hanyB : rs.any (fun r => r.outcome == .BLOCKED) = true :=
        List.any_eq_true.mpr ⟨r0, hr0, by simp [hr0b]⟩
      refine ⟨by rw [hout, if_pos hanyB], by rw [hallow, hanyB]; rfl, ?_, ?_⟩
      · rcases blockedMaxFold_attained rs 0 with hz | ⟨r, hr, hrb, heq⟩
        · refine ⟨r0, hr0, hr0b, ?_⟩
          have h1 : r0.retryAfterMs ≤ blockedMaxFold 0 rs :=
            blockedMaxFold_ge_mem rs 0 r0 hr0 hr0b
          have h2 : 0 ≤ r0.retryAfterMs := hretry r0 hr0
          rw [hretryEq, hz]
          linarith [h1, hz ▸ h1]
        · exact ⟨r, hr, hrb, by rw [hretryEq, heq]⟩
      · intro r hr hrb
        rw [hretryEq]
        exact blockedMaxFold_ge_mem rs 0 r hr hrb
    · have hanyB : rs.any (fun r => r.outcome == .BLOCKED) = false := by
        rw [List.any_eq_false]
        intro r hr
        simp [hnb r hr]
      obtain ⟨r0, hr0, hr0c⟩ := hc
      have hanyC : rs.any (fun r => r.outcome == .CHALLENGE) = true :=
        List.any_eq_true.mpr ⟨r0, hr0, by simp [hr0c]⟩
      refine ⟨by rw [hout, hanyB]; simp [hanyC], by rw [hallow, hanyB]; rfl, ?_⟩
      rw [hchal]
      exact challengeHintFold_first rs none rfl hhint
    · have hanyB : rs.any (fun r => r.outcome == .BLOCKED) = false := by
        rw [List.any_eq_false]
        intro r hr
        simp [hnb r hr]
      have hanyC : rs.any (fun r => r.outcome == .CHALLENGE) = false := by
        rw [List.any_eq_false]
        intro r hr
        simp [hnc r hr]
      refine ⟨by rw [hout, hanyB, hanyC]; rfl, by rw [hallow, hanyB]; rfl, ?_⟩
      rw [hretryEq]
      rcases blockedMaxFold_attained rs 0 with hz | ⟨r, hr, hrb, _⟩
      · exact hz
      · exact absurd hrb (hnb r hr)

/-- Concrete instantiation of `combineRuleResults_and_semantics`: one
BLOCKED result (retry 500 ms) and one CHALLENGE result, combining to a
BLOCKED decision. -/
theorem combineRuleResults_and_semantics_witness :
    (∀ r ∈ [({ ruleName := "r1", key := "k1", allowed := false, outcome := .BLOCKED,
               retryAfterMs := 500, remainingTokens := 0 } : RuleResult),
             { ruleName := "r2", key := "k2", allowed := false, outcome := .CHALLENGE,
               retryAfterMs := 200, remainingTokens := 0,
               challenge := some "captcha_required" }], 0 ≤ r.retryAfterMs) ∧
    (∀ r ∈ [({ ruleName := "r1", key := "k1", allowed := false, outcome := .BLOCKED,
               retryAfterMs := 500, remainingTokens := 0 } : RuleResult),
             { ruleName := "r2", key := "k2", allowed := false, outcome := .CHALLENGE,
               retryAfterMs := 200, remainingTokens := 0,
               challenge := some "captcha_required" }],
        truthy r.challenge = true → r.outcome = .CHALLENGE) ∧
    (combineRuleResults "login"
        [{ ruleName := "r1", key := "k1", allowed := false, outcome := .BLOCKED,
           retryAfterMs := 500, remainingTokens := 0 },
         { ruleName := "r2", key := "k2", allowed := false, outcome := .CHALLENGE,
           retryAfterMs := 200, remainingTokens := 0,
           challenge := some "captcha_required" }] []).outcome = .BLOCKED ∧
    (combineRuleResults "login"
        [{ ruleName := "r1", key := "k1", allowed := false, outcome := .BLOCKED,
           retryAfterMs := 500, remainingTokens := 0 },
         { ruleName := "r2", key := "k2", allowed := false, outcome := .CHALLENGE,
           retryAfterMs := 200, remainingTokens := 0,
           challenge := some "captcha_required" }] []).allowed = false := by
  refine ⟨by decide, by decide, ?_, ?_⟩
  · exact ((combineRuleResults_and_semantics "login" _ [] (by decide) (by decide)).2.1
      ⟨_, List.mem_cons_self _ _, rfl⟩).1
  · exact ((combineRuleResults_and_semantics "login" _ [] (by decide) (by decide)).2.1
      ⟨_, List.mem_cons_self _ _, rfl⟩).2.1

/-! ## Rules, policies and contexts (`types.ts`) -/

/-- `RuleMode` from `types.ts`. -/
inductive RuleMode where
  | block
  | challenge
deriving DecidableEq, Repr

/-- `FailMode` from `types.ts`. -/
inductive FailMode where
  | open
  | closed
deriving DecidableEq, Repr

/-- `RateLimitRule` from `types.ts`. Dimension tags are strings (the
TS `KeyDimension` union plus the open custom-dimension fallback of the
default extractor). Optional fields are `Option`s. -/
structure RateLimitRule where
  name : String
  key : List String
  capacity : ℚ
  refillTokens : ℚ
  refillIntervalMs : ℚ
  cost : Option ℚ := none
  mode : Option RuleMode := none
  ttlMs : Option ℚ := none
deriving DecidableEq, Repr

/-- `ActionPolicy` from `types.ts`. -/
structure ActionPolicy where
  id : String
  rules : List RateLimitRule
  failMode : FailMode
deriving DecidableEq, Repr

/-- `RequestContext` from `types.ts`: the seven well-known fields plus the
open index-signature extension, modelled as an association list. -/
structure RequestContext where
  ip : Option String := none
  emailHash : Option String := none
  phoneHash : Option String := none
  userId : Option String := none
  sessionId : Option String := none
  action : String
  route : Option String := none
  custom : List (String × String) := []
deriving DecidableEq, Repr

/-- A `KeyExtractor` (`extract(dimension, context)`). -/
def KeyExtractor : Type := String → RequestContext → Option String

/-- `DefaultKeyExtractor.extract` from `keyBuilder.ts`. -/
def defaultExtract : KeyExtractor := fun dimension context =>
  if dimension = "ip" then context.ip
  else if dimension = "emailHash" then context.emailHash
  else if dimension = "phoneHash" then context.phoneHash
  else if dimension = "userId" then context.userId
  else if dimension = "sessionId" then context.sessionId
  else if dimension = "action" then some context.action
  else if dimension = "route" then context.route
  else context.custom.lookup dimension

/-- `ruleToConfig` from `tokenBucket.ts`. -/
def ruleToConfig (rule : RateLimitRule) : TokenBucketConfig :=
  { capacity := rule.capacity
    refillTokens := rule.refillTokens
    refillIntervalMs := rule.refillIntervalMs }

/-- `calculateDefaultTtl` from `tokenBucket.ts`. -/
def calculateDefaultTtl (rule : RateLimitRule) : ℚ :=
  match rule.ttlMs with
  | some t => t
  | none =>
    let fullRefillTime := rule.capacity / rule.refillTokens * rule.refillIntervalMs
    ((⌈fullRefillTime * 2⌉ : ℤ) : ℚ)

/-! ## Key builder (`keyBuilder.ts`) -/

/-- JS object property update `obj[k] = v`: overwrite in place if the key
exists, otherwise append (JS property insertion order). -/
def recordSet (m : List (String × String)) (k v : String) : List (String × String) :=
  match m with
  | [] => [(k, v)]
  | (k', v') :: rest => if k' = k then (k, v) :: rest else (k', v') :: recordSet rest k v

/-- `sanitizeValue` from `keyBuilder.ts`: `value.replace(/[:=]/g, '_')`. -/
def sanitizeValue (value : String) : String :=
  ⟨value.data.map fun c => if c = ':' ∨ c = '=' then '_' else c⟩

/-- JS `Array.prototype.join(sep)` on character lists. -/
def joinSep (sep : Char) : List (List Char) → List Char
  | [] => []
  | [p] => p
  | p :: q :: ps => p ++ sep :: joinSep sep (q :: ps)

/-- JS `String.prototype.split(sep)` on character lists (`"".split(sep)`
is `[""]`). -/
def splitSep (sep : Char) : List Char → List (List Char)
  | [] => [[]]
  | c :: rest =>
    match splitSep sep rest with
    | [] => [[]]
    | h :: t => if c = sep then [] :: h :: t else (c :: h) :: t

/-- The per-dimension segments of `buildKey`'s `parts` array: `none` as
soon as a declared dimension is absent or empty, otherwise the list of
`dimension=value` segments (values sanitized) in declaration order. -/
def buildParts (extractor : KeyExtractor) (context : RequestContext) :
    List String → Option (List (List Char))
  | [] => some []
  | dimension :: ds =>
    match extractor dimension context with
    | none => none
    | some value =>
      if value = "" then none
      else
        (buildParts extractor context ds).map
          (fun rest => (dimension.data ++ '=' :: (sanitizeValue value).data) :: rest)

/-- `buildKey` from `keyBuilder.ts` (returning `none` for "no key"). -/
def buildKey (action : String) (rule : RateLimitRule) (context : RequestContext)
    (extractor : KeyExtractor := defaultExtract) : Option String :=
  (buildParts extractor context rule.key).map
    (fun parts => ⟨joinSep ':' (action.data :: rule.name.data :: parts)⟩)

/-- The result record of `parseKey`. -/
structure ParsedKey where
  action : String
  ruleName : String
  dimensions : List (String × String)
deriving DecidableEq, Repr

/-- `part.indexOf('=')` from `parseKey`. -/
def findEq : List Char → Option ℕ
  | [] => none
  | c :: rest => if c = '=' then some 0 else (findEq rest).map (· + 1)

/-- The dimension-collecting loop of `parseKey` (`for (let i = 2; ...)`). -/
def parseDims : List (List Char) → List (String × String) → List (String × String)
  | [], dims => dims
  | part :: rest, dims =>
    if part = [] then parseDims rest dims
    else
      match findEq part with
      | none => parseDims rest dims
      | some eqIndex =>
        let dimName := part.take eqIndex
        let dimValue := part.drop (eqIndex + 1)
        if dimName = [] then parseDims rest dims
        else parseDims rest (recordSet dims ⟨dimName⟩ ⟨dimValue⟩)

/-- `parseKey` from `keyBuilder.ts` (`null` as `none`). -/
def parseKey (key : String) : Option ParsedKey :=
  match splitSep ':' key.data with
  | action :: ruleName :: rest =>
    if action = [] ∨ ruleName = [] then none
    else some ⟨⟨action⟩, ⟨ruleName⟩, parseDims rest []⟩
  | _ => none

unseal Rat.add Rat.sub Rat.mul Rat.inv in
example :
    buildKey "password_reset_request" ⟨"per_ip", ["ip"], 10, 5, 1000, none, none, none⟩
      { action := "password_reset_request", ip := some "192.168.1.1" }
      = some "password_reset_request:per_ip:ip=192.168.1.1" := by decide

example :
    parseKey "password_reset_request:per_ip:ip=192.168.1.1"
      = some ⟨"password_reset_request", "per_ip", [("ip", "192.168.1.1")]⟩ := by decide

theorem splitSep_ne_nil (sep : Char) (l : List Char) : splitSep sep l ≠ [] := by
  cases l with
  | nil => simp [splitSep]
  | cons c rest =>
    simp only [splitSep]
    cases hs : splitSep sep rest with
    | nil => simp
    | cons h t => by_cases hc : c = sep <;> simp [hc]

theorem splitSep_no_sep (sep : Char) (l : List Char) (h : sep ∉ l) :
    splitSep sep l = [l] := by
  induction l with
  | nil => rfl
  | cons c rest ih =>
    have hc : c ≠ sep := fun hc => h (hc ▸ List.mem_cons_self c rest)
    have hr : sep ∉ rest := fun hr => h (List.mem_cons_of_mem c hr)
    simp only [splitSep, ih hr]
    rw [if_neg hc]

theorem splitSep_append (sep : Char) (p rest : List Char) (h : sep ∉ p) :
    splitSep sep (p ++ sep :: rest) = p :: splitSep sep rest := by
  induction p with
  | nil =>
    rw [List.nil_append]
    show (match splitSep sep rest with
          | [] => [[]]
          | h :: t => if sep = sep then [] :: h :: t else (sep :: h) :: t)
        = [] :: splitSep sep rest
    cases hs : splitSep sep rest with
    | nil => exact absurd hs (splitSep_ne_nil sep rest)
    | cons h t => simp
  | cons c p ih =>
    have hc : c ≠ sep := fun hc => h (hc ▸ List.mem_cons_self c p)
    have hp : sep ∉ p := fun hp => h (List.mem_cons_of_mem c hp)
    rw [List.cons_append]
    show (match splitSep sep (p ++ sep :: rest) with
          | [] => [[]]
          | h :: t => if c = sep then [] :: h :: t else (c :: h) :: t)
        = (c :: p) :: splitSep sep rest
    rw [ih hp]
    simp [hc]

theorem splitSep_joinSep (sep : Char) :
    ∀ ps : List (List Char), ps ≠ [] → (∀ p ∈ ps, sep ∉ p) →
      splitSep sep (joinSep sep ps) = ps := by
  intro ps
  induction ps with
  | nil => intro h; exact absurd rfl h
  | cons p ps ih =>
    intro _ hsep
    cases ps with
    | nil =>
      simp only [joinSep]
      exact splitSep_no_sep sep p (hsep p (List.mem_cons_self p []))
    | cons q qs =>
      have hp : sep ∉ p := hsep p (List.mem_cons_self _ _)
      have htail : ∀ r ∈ q :: qs, sep ∉ r :=
        fun r hr => hsep r (List.mem_cons_of_mem p hr)
      simp only [joinSep]
      rw [splitSep_append sep p _ hp, ih (by simp) htail]

theorem findEq_append (p w : List Char) (h : '=' ∉ p) :
    findEq (p ++ '=' :: w) = some p.length := by
  induction p with
  | nil => simp [findEq]
  | cons c p ih =>
    have hc : c ≠ '=' := fun hc => h (hc ▸ List.mem_cons_self c p)
    have hp : '=' ∉ p := fun hp => h (List.mem_cons_of_mem c hp)
    rw [List.cons_append]
    show (if c = '=' then some 0 else (findEq (p ++ '=' :: w)).map (· + 1))
        = some (c :: p).length
    rw [if_neg hc, ih hp]
    rfl

theorem sanitizeValue_no_sep (value : String) :
    ':' ∉ (sanitizeValue value).data ∧ '=' ∉ (sanitizeValue value).data := by
  constructor <;>
  · intro hmem
    simp only [sanitizeValue, List.mem_map] at hmem
    obtain ⟨c, _, hc⟩ := hmem
    by_cases h : c = ':' ∨ c = '='
    · rw [if_pos h] at hc
      exact absurd hc (by decide)
    · rw [if_neg h] at hc
      subst hc
      exact h (by simp)

theorem recordSet_not_mem (m : List (String × String)) (k v : String)
    (h : k ∉ m.map Prod.fst) : recordSet m k v = m ++ [(k, v)] := by
  induction m with
  | nil => rfl
  | cons e rest ih =>
    have hk : e.1 ≠ k := by
      intro he
      exact h (by simp [he])
    have hr : k ∉ rest.map Prod.fst := by
      intro hmem
      exact h (by simp [hmem])
    cases e with
    | mk k' v' =>
      simp only [recordSet, ih hr, List.cons_append]
      rw [if_neg hk]

/-- The `dimension=value` segment that `buildKey` pushes for a declared
dimension (value sanitized; `getD ""` is only evaluated under the
hypothesis that extraction succeeded). -/
def dimSegment (extractor : KeyExtractor) (context : RequestContext)
    (d : String) : List Char :=
  d.data ++ '=' :: (sanitizeValue ((extractor d context).getD "")).data

theorem buildParts_eq_none_iff (extractor : KeyExtractor) (context : RequestContext) :
    ∀ ds : List String,
      (buildParts extractor context ds = none ↔
        ∃ d ∈ ds, extractor d context = none ∨ extractor d context = some "") := by
  intro ds
  induction ds with
  | nil => simp [buildParts]
  | cons d ds ih =>
    simp only [buildParts]
    cases hx : extractor d context with
    | none => simp [hx]
    | some v =>
      by_cases hv : v = ""
      · subst hv
        simp [hx]
      · cases hrest : buildParts extractor context ds with
        | none =>
          simp only [hrest, Option.map_none, hv, ite_false, List.mem_cons]
          constructor
          · intro _
            obtain ⟨d', hd', hc⟩ := ih.mp hrest
            exact ⟨d', Or.inr hd', hc⟩
          · intro _; rfl
        | some ps =>
          simp only [hrest, Option.map_some, hv, ite_false, List.mem_cons]
          constructor
          · intro h; exact absurd h (by simp)
          · rintro ⟨d', hd' | hd', hc⟩
            · subst hd'
              rcases hc with hc | hc <;> rw [hc] at hx
              · exact absurd hx (by simp)
              · exact absurd (Option.some.inj hx).symm hv
            · have : buildParts extractor context ds = none :=
                ih.mpr ⟨d', hd', hc⟩
              rw [this] at hrest
              exact absurd hrest (by simp)

theorem buildParts_eq_some (extractor : KeyExtractor) (context : RequestContext) :
    ∀ (ds : List String) (ps : List (List Char)),
      buildParts extractor context ds = some ps →
      ps = ds.map (dimSegment extractor context) := by
  intro ds
  induction ds with
  | nil =>
    intro ps h
    simp only [buildParts, Option.some.injEq] at h
    simp [← h]
  | cons d ds ih =>
    intro ps h
    cases hx : extractor d context with
    | none =>
      simp only [buildParts, hx] at h
      exact Option.noConfusion h
    | some v =>
      simp only [buildParts, hx] at h
      by_cases hv : v = ""
      · rw [if_pos hv] at h
        exact Option.noConfusion h
      · rw [if_neg hv] at h
        cases hrest : buildParts extractor context ds with
        | none =>
          rw [hrest] at h
          exact Option.noConfusion h
        | some qs =>
          rw [hrest] at h
          have h' : (d.data ++ '=' :: (sanitizeValue v).data) :: qs = ps :=
            Option.some.inj h
          subst h'
          rw [ih qs hrest]
          simp [dimSegment, hx]

theorem parseDims_segments (extractor : KeyExtractor) (context : RequestContext) :
    ∀ (ds : List String) (dims : List (String × String)),
      (∀ d ∈ ds, '=' ∉ d.data ∧ d ≠ "") →
      ds.Nodup →
      (∀ d ∈ ds, d ∉ dims.map Prod.fst) →
      parseDims (ds.map (dimSegment extractor context)) dims
        = dims ++ ds.map (fun d => (d, sanitizeValue ((extractor d context).getD ""))) := by
  intro ds
  induction ds with
  | nil => intro dims _ _ _; simp [parseDims]
  | cons d ds ih =>
    intro dims hwf hnodup hdisj
    obtain ⟨hdeq, hdne⟩ := hwf d (List.mem_cons_self d ds)
    have hdata : d.data ≠ [] := by
      intro h
      exact hdne (by cases d with | mk l => cases h; rfl)
    have hseg : dimSegment extractor context d ≠ [] := by
      simp [dimSegment]
    simp only [List.map_cons, parseDims, hseg, ite_false]
    have hfind : findEq (dimSegment extractor context d) = some d.data.length :=
      findEq_append _ _ hdeq
    simp only [hfind]
    have htake : (dimSegment extractor context d).take d.data.length = d.data :=
      List.take_left _ _
    have hdrop : (dimSegment extractor context d).drop (d.data.length + 1)
        = (sanitizeValue ((extractor d context).getD "")).data := by
      have hsplit : dimSegment extractor context d
          = (d.data ++ ['=']) ++ (sanitizeValue ((extractor d context).getD "")).data := by
        simp [dimSegment]
      rw [hsplit]
      exact List.drop_left' (by simp)
    simp only [htake, hdrop]
    rw [if_neg hdata]
    have hmk1 : (⟨d.data⟩ : String) = d := rfl
    have hmk2 : (⟨(sanitizeValue ((extractor d context).getD "")).data⟩ : String)
        = sanitizeValue ((extractor d context).getD "") := rfl
    rw [hmk1, hmk2]
    have hdnotin : d ∉ dims.map Prod.fst := hdisj d (List.mem_cons_self d ds)
    rw [recordSet_not_mem dims d _ hdnotin]
    have hnd : d ∉ ds := (List.nodup_cons.mp hnodup).1
    rw [ih (dims ++ [(d, sanitizeValue ((extractor d context).getD ""))])
      (fun d' hd' => hwf d' (List.mem_cons_of_mem d hd'))
      (List.nodup_cons.mp hnodup).2
      ?_]
    · simp
    · intro d' hd'
      simp only [List.map_append, List.mem_append, List.map_cons, List.map_nil]
      rintro (hin | hin)
      · exact hdisj d' (List.mem_cons_of_mem d hd') hin
      · simp only [List.mem_singleton] at hin
        exact hnd (hin ▸ hd')

theorem string_data_ne_nil {s : String} (h : s ≠ "") : s.data ≠ [] := by
  intro hd
  exact h (by cases s with | mk l => cases hd; rfl)

/-! ## Claim C8: key building and parsing -/

/-- **C8.** `buildKey` returns the no-key value exactly when some declared
dimension's value is absent or empty; otherwise it returns the composite
`action:ruleName:dim=value:...` key with separator characters inside
dimension values replaced by `_`; and on every well-formed key it
produces (action and rule name non-empty and separator-free, dimension
tags non-empty, separator-free and distinct), `parseKey` is the exact
left-inverse, recovering the action, the rule name and the embedded
dimension-to-value mapping (values sanitized). -/
theorem buildKey_parseKey_spec (action : String) (rule : RateLimitRule)
    (context : RequestContext) (extractor : KeyExtractor)
    (hact : ':' ∉ action.data) (hactne : action ≠ "")
    (hrn : ':' ∉ rule.name.data) (hrnne : rule.name ≠ "")
    (hdims : ∀ d ∈ rule.key, ':' ∉ d.data ∧ '=' ∉ d.data ∧ d ≠ "")
    (hnodup : rule.key.Nodup) :
    (buildKey action rule context extractor = none ↔
      ∃ d ∈ rule.key, extractor d context = none ∨ extractor d context = some "") ∧
    ∀ k, buildKey action rule context extractor = some k →
      k = ⟨joinSep ':' (action.data :: rule.name.data ::
          rule.key.map (dimSegment extractor context))⟩ ∧
      parseKey k = some ⟨action, rule.name,
        rule.key.map (fun d => (d, sanitizeValue ((extractor d context).getD "")))⟩ := by
  constructor
  · simp only [buildKey, Option.map_eq_none']
    exact buildParts_eq_none_iff extractor context rule.key
  · intro k hk
    obtain ⟨ps, hps, hkeq⟩ := Option.map_eq_some'.mp hk
    have hpseq := buildParts_eq_some extractor context rule.key ps hps
    subst hpseq
    subst hkeq
    refine ⟨rfl, ?_⟩
    have hparts : ∀ p ∈ action.data :: rule.name.data ::
        rule.key.map (dimSegment extractor context), ':' ∉ p := by
      intro p hp
      rcases List.mem_cons.mp hp with h | hp
      · subst h; exact hact
      rcases List.mem_cons.mp hp with h | hp
      · subst h; exact hrn
      obtain ⟨d, hd, hseg⟩ := List.mem_map.mp hp
      subst hseg
      obtain ⟨hd1, _, _⟩ := hdims d hd
      intro hmem
      rcases List.mem_append.mp hmem with hin | hin
      · exact hd1 hin
      rcases List.mem_cons.mp hin with h | hin
      · exact absurd h (by decide)
      · exact (sanitizeValue_no_sep _).1 hin
    have hsplit : splitSep ':' (String.mk (joinSep ':' (action.data :: rule.name.data ::
        rule.key.map (dimSegment extractor context)))).data
        = action.data :: rule.name.data :: rule.key.map (dimSegment extractor context) :=
      splitSep_joinSep ':' _ (by simp) hparts
    have hpk : parseKey ⟨joinSep ':' (action.data :: rule.name.data ::
        rule.key.map (dimSegment extractor context))⟩
        = if action.data = [] ∨ rule.name.data = [] then none
          else some ⟨⟨action.data⟩, ⟨rule.name.data⟩,
            parseDims (rule.key.map (dimSegment extractor context)) []⟩ := by
      unfold parseKey
      rw [hsplit]
    rw [hpk]
    rw [if_neg (by
      rintro (h | h)
      · exact string_data_ne_nil hactne h
      · exact string_data_ne_nil hrnne h)]
    rw [parseDims_segments extractor context rule.key []
      (fun d hd => ⟨(hdims d hd).2.1, (hdims d hd).2.2⟩) hnodup (by simp)]
    rfl

/-- Concrete instantiation of `buildKey_parseKey_spec`: two dimensions, one
value containing both separator characters. -/
theorem buildKey_parseKey_spec_witness :
    (':' ∉ "login".data ∧ "login" ≠ "" ∧ ':' ∉ "per_ip".data ∧ "per_ip" ≠ "" ∧
      (∀ d ∈ (["ip", "emailHash"] : List String), ':' ∉ d.data ∧ '=' ∉ d.data ∧ d ≠ "") ∧
      (["ip", "emailHash"] : List String).Nodup) ∧
    buildKey "login" ⟨"per_ip", ["ip", "emailHash"], 5, 1, 1000, none, none, none⟩
      { action := "login", ip := some "1.2.3.4", emailHash := some "a=b:c" }
      defaultExtract
      = some "login:per_ip:ip=1.2.3.4:emailHash=a_b_c" ∧
    parseKey "login:per_ip:ip=1.2.3.4:emailHash=a_b_c"
      = some ⟨"login", "per_ip", [("ip", "1.2.3.4"), ("emailHash", "a_b_c")]⟩ := by
  refine ⟨⟨by decide, by decide, by decide, by decide, by decide, by decide⟩, by decide, ?_⟩
  have h := (buildKey_parseKey_spec "login"
      ⟨"per_ip", ["ip", "emailHash"], 5, 1, 1000, none, none, none⟩
      { action := "login", ip := some "1.2.3.4", emailHash := some "a=b:c" }
      defaultExtract (by decide) (by decide) (by decide) (by decide) (by decide)
      (by decide)).2
    "login:per_ip:ip=1.2.3.4:emailHash=a_b_c" (by decide)
  rw [h.2]
  decide

/-! ## Policy engine (`policyEngine.ts`) -/

deriving instance DecidableEq for Except

/-- The store interface seen by the engine: `get`/`set` act on an abstract
mutable-store state `σ` and may throw (`Except.error`); state mutations
committed before a throw survive, as for a JS store object. -/
structure StoreOps (σ : Type) where
  get : σ → String → Except String (Option TokenBucketState) × σ
  set : σ → String → TokenBucketState → ℚ → Except String Unit × σ

/-- `PolicyEngine.evaluateRule`. `now` is the engine's `timeProvider`
value for this evaluation. -/
def evaluateRuleM {σ : Type} (ops : StoreOps σ) (extractor : KeyExtractor)
    (now : ℚ) (policy : ActionPolicy) (rule : RateLimitRule)
    (context : RequestContext) (s : σ) : Except String RuleResult × σ :=
  match buildKey policy.id rule context extractor with
  | none =>
    (.ok
      { ruleName := rule.name
        key := "skipped"
        allowed := true
        outcome := .ALLOWED
        retryAfterMs := 0
        remainingTokens := rule.capacity }, s)
  | some key =>
    let config := ruleToConfig rule
    let ttlMs := calculateDefaultTtl rule
    let cost := rule.cost.getD 1
    match ops.get s key with
    | (.error e, s₁) => (.error e, s₁)
    | (.ok found, s₁) =>
      let bucketState :=
        match found with
        | none => createBucket config now ttlMs
        | some b => if isBucketExpired b now then createBucket config now ttlMs else b
      let consumeResult := consumeTokens bucketState config cost now ttlMs
      match ops.set s₁ key consumeResult.bucketState ttlMs with
      | (.error e, s₂) => (.error e, s₂)
      | (.ok _, s₂) =>
        let mode := rule.mode.getD .block
        let outcome : DecisionOutcome :=
          if consumeResult.allowed then .ALLOWED
          else if mode = .challenge then .CHALLENGE
          else .BLOCKED
        let challenge : Option String :=
          if consumeResult.allowed then none
          else if mode = .challenge then some "captcha_required"
          else none
        (.ok
          { ruleName := rule.name
            key := key
            allowed := consumeResult.allowed
            outcome := outcome
            retryAfterMs := consumeResult.retryAfterMs
            remainingTokens := consumeResult.remainingTokens
            challenge := challenge }, s₂)

/-- The rule loop of `PolicyEngine.evaluatePolicy`, threading the
`ruleResults` list and the `keys` record. -/
def evalRulesM {σ : Type} (ops : StoreOps σ) (extractor : KeyExtractor)
    (now : ℚ) (policy : ActionPolicy) (context : RequestContext) :
    List RateLimitRule → σ → List (String × String) →
    Except String (List RuleResult × List (String × String)) × σ
  | [], s, keysAcc => (.ok ([], keysAcc), s)
  | rule :: rest, s, keysAcc =>
    match evaluateRuleM ops extractor now policy rule context s with
    | (.error e, s₁) => (.error e, s₁)
    | (.ok result, s₁) =>
      let keysAcc₁ :=
        if result.key ≠ "skipped" then recordSet keysAcc rule.name result.key
        else keysAcc
      match evalRulesM ops extractor now policy context rest s₁ keysAcc₁ with
      | (.error e, s₂) => (.error e, s₂)
      | (.ok (results, keysOut), s₂) => (.ok (result :: results, keysOut), s₂)

/-- `PolicyEngine.evaluatePolicy`. -/
def evaluatePolicyM {σ : Type} (ops : StoreOps σ) (extractor : KeyExtractor)
    (now : ℚ) (policy : ActionPolicy) (context : RequestContext) (s : σ) :
    Except String RateLimitDecision × σ :=
  match evalRulesM ops extractor now policy context policy.rules s [] with
  | (.error e, s₁) => (.error e, s₁)
  | (.ok (ruleResults, keys), s₁) =>
    (.ok (combineRuleResults policy.id ruleResults keys), s₁)

/-- `PolicyEngine.check`: policy lookup, then evaluation with any thrown
store error converted into an error decision per the policy's fail mode
(`FailMode.open` as the `failOpen := true` flag of
`createErrorDecision`). -/
def check {σ : Type} (ops : StoreOps σ) (extractor : KeyExtractor)
    (now : ℚ) (policies : List (String × ActionPolicy))
    (context : RequestContext) (s : σ) : RateLimitDecision × σ :=
  match policies.lookup context.action with
  | none => (createAllowedDecision context.action, s)
  | some policy =>
    match evaluatePolicyM ops extractor now policy context s with
    | (.ok decision, s₁) => (decision, s₁)
    | (.error e, s₁) =>
      (createErrorDecision context.action (policy.failMode = .open) e, s₁)

/-! ## Claim C6: unbuildable key skips the rule -/

/-- **C6.** When a rule's key cannot be built, `evaluateRule` emits the
`"skipped"` sentinel result (`allowed`, ALLOWED, `retryAfterMs = 0`,
`remainingTokens = capacity`) and neither reads from nor writes to the
store: the result holds for every store implementation `ops` and every
store state `s`, the state is returned unchanged, and the policy (hence
its fail mode) is arbitrary. -/
theorem evaluateRule_skip {σ : Type} (ops : StoreOps σ) (extractor : KeyExtractor)
    (now : ℚ) (policy : ActionPolicy) (rule : RateLimitRule)
    (context : RequestContext) (s : σ)
    (h : buildKey policy.id rule context extractor = none) :
    evaluateRuleM ops extractor now policy rule context s =
      (.ok { ruleName := rule.name
             key := "skipped"
             allowed := true
             outcome := .ALLOWED
             retryAfterMs := 0
             remainingTokens := rule.capacity
             challenge := none }, s) := by
  unfold evaluateRuleM
  rw [h]

/-- Concrete instantiation of `evaluateRule_skip`: a per-IP rule evaluated
against a context with no `ip`, under a fail-closed policy. -/
theorem evaluateRule_skip_witness :
    buildKey "login" ⟨"per_ip", ["ip"], 5, 1, 1000, none, none, none⟩
      { action := "login" } defaultExtract = none ∧
    evaluateRuleM (⟨fun s _ => (.ok none, s), fun s _ _ _ => (.ok (), s)⟩ : StoreOps Unit)
      defaultExtract 0
      ⟨"login", [⟨"per_ip", ["ip"], 5, 1, 1000, none, none, none⟩], .closed⟩
      ⟨"per_ip", ["ip"], 5, 1, 1000, none, none, none⟩
      { action := "login" } ()
      = (.ok { ruleName := "per_ip"
               key := "skipped"
               allowed := true
               outcome := .ALLOWED
               retryAfterMs := 0
               remainingTokens := 5
               challenge := none }, ()) := by
  refine ⟨by decide, ?_⟩
  exact evaluateRule_skip _ defaultExtract 0
    ⟨"login", [⟨"per_ip", ["ip"], 5, 1, 1000, none, none, none⟩], .closed⟩
    ⟨"per_ip", ["ip"], 5, 1, 1000, none, none, none⟩
    { action := "login" } () (by decide)

/-! ## Claim C5: store errors never propagate -/

/-- **C5.** When the action has a policy and rule evaluation throws a
store error, `check` does not propagate it (its return type is a plain
decision): it returns `createErrorDecision` for the action with
`failedDueToError`; fail-open gives `allowed`/ALLOWED/`retryAfterMs = 0`,
fail-closed gives blocked with the fixed one-minute retry. -/
theorem check_store_error_spec {σ : Type} (ops : StoreOps σ) (extractor : KeyExtractor)
    (now : ℚ) (policies : List (String × ActionPolicy)) (context : RequestContext)
    (s s₁ : σ) (policy : ActionPolicy) (e : String)
    (hp : policies.lookup context.action = some policy)
    (herr : evaluatePolicyM ops extractor now policy context s = (.error e, s₁)) :
    check ops extractor now policies context s
      = (createErrorDecision context.action (policy.failMode = .open) e, s₁) ∧
    (check ops extractor now policies context s).1.failedDueToError = true ∧
    (policy.failMode = .open →
      (check ops extractor now policies context s).1.allowed = true ∧
      (check ops extractor now policies context s).1.outcome = .ALLOWED ∧
      (check ops extractor now policies context s).1.retryAfterMs = 0) ∧
    (policy.failMode = .closed →
      (check ops extractor now policies context s).1.allowed = false ∧
      (check ops extractor now policies context s).1.outcome = .BLOCKED ∧
      (check ops extractor now policies context s).1.retryAfterMs = 60000) := by
  have hck : check ops extractor now policies context s
      = (createErrorDecision context.action (policy.failMode = .open) e, s₁) := by
    unfold check
    rw [hp]
    show (match evaluatePolicyM ops extractor now policy context s with
          | (Except.ok decision, s₁) => (decision, s₁)
          | (Except.error e, s₁) =>
            (createErrorDecision context.action (decide (policy.failMode = FailMode.open)) e, s₁))
        = _
    rw [herr]
  refine ⟨hck, ?_, ?_, ?_⟩
  · rw [hck]; rfl
  · intro hopen
    rw [hck]
    simp [createErrorDecision, hopen]
  · intro hclosed
    rw [hck]
    have : ¬ (policy.failMode = .open) := by rw [hclosed]; decide
    simp [createErrorDecision, this]

unseal Rat.add Rat.sub Rat.mul Rat.inv in
/-- Concrete instantiation of `check_store_error_spec`: a fail-closed
one-rule policy whose store throws on `get`. -/
theorem check_store_error_spec_witness :
    ([("login", (⟨"login", [⟨"per_ip", ["ip"], 5, 1, 1000, none, none, some 5000⟩],
        .closed⟩ : ActionPolicy))].lookup "login"
      = some (⟨"login", [⟨"per_ip", ["ip"], 5, 1, 1000, none, none, some 5000⟩],
        .closed⟩ : ActionPolicy)) ∧
    evaluatePolicyM
        (⟨fun s _ => (.error "Connection timeout", s), fun s _ _ _ => (.ok (), s)⟩ :
          StoreOps Unit)
        defaultExtract 0
        ⟨"login", [⟨"per_ip", ["ip"], 5, 1, 1000, none, none, some 5000⟩], .closed⟩
        { action := "login", ip := some "1.2.3.4" } ()
      = (.error "Connection timeout", ()) ∧
    ((check (⟨fun s _ => (.error "Connection timeout", s), fun s _ _ _ => (.ok (), s)⟩ :
          StoreOps Unit)
        defaultExtract 0
        [("login", ⟨"login", [⟨"per_ip", ["ip"], 5, 1, 1000, none, none, some 5000⟩],
          .closed⟩)]
        { action := "login", ip := some "1.2.3.4" } ()).1.allowed = false ∧
      (check (⟨fun s _ => (.error "Connection timeout", s), fun s _ _ _ => (.ok (), s)⟩ :
          StoreOps Unit)
        defaultExtract 0
        [("login", ⟨"login", [⟨"per_ip", ["ip"], 5, 1, 1000, none, none, some 5000⟩],
          .closed⟩)]
        { action := "login", ip := some "1.2.3.4" } ()).1.outcome = .BLOCKED ∧
      (check (⟨fun s _ => (.error "Connection timeout", s), fun s _ _ _ => (.ok (), s)⟩ :
          StoreOps Unit)
        defaultExtract 0
        [("login", ⟨"login", [⟨"per_ip", ["ip"], 5, 1, 1000, none, none, some 5000⟩],
          .closed⟩)]
        { action := "login", ip := some "1.2.3.4" } ()).1.failedDueToError = true) := by
  refine ⟨by decide, by decide, ?_⟩
  have h := check_store_error_spec
    (⟨fun s _ => (.error "Connection timeout", s), fun s _ _ _ => (.ok (), s)⟩ :
      StoreOps Unit)
    defaultExtract 0
    [("login", ⟨"login", [⟨"per_ip", ["ip"], 5, 1, 1000, none, none, some 5000⟩], .closed⟩)]
    { action := "login", ip := some "1.2.3.4" } () ()
    ⟨"login", [⟨"per_ip", ["ip"], 5, 1, 1000, none, none, some 5000⟩], .closed⟩
    "Connection timeout" (by decide) (by decide)
  obtain ⟨-, hflag, -, hclosed⟩ := h
  obtain ⟨ha, ho, -⟩ := hclosed rfl
  exact ⟨ha, ho, hflag⟩

/-! ## Claim C3: challenge mode on a denied consume -/

/-- The consume attempt `evaluateRule` makes for a rule, as a function of
the bucket state found in the store (`none` when absent; an expired
bucket is replaced by a fresh one). -/
def engineConsume (rule : RateLimitRule) (now : ℚ)
    (found : Option TokenBucketState) : ConsumeResult :=
  consumeTokens
    (match found with
     | none => createBucket (ruleToConfig rule) now (calculateDefaultTtl rule)
     | some b =>
       if isBucketExpired b now then
         createBucket (ruleToConfig rule) now (calculateDefaultTtl rule)
       else b)
    (ruleToConfig rule) (rule.cost.getD 1) now (calculateDefaultTtl rule)

unseal Rat.add Rat.sub Rat.mul Rat.inv in
/-- **C3 (counterexample).** A challenge-mode rule (capacity 1, cost 2)
whose consume attempt is denied on a fresh bucket produces a `RuleResult`
whose `allowed` flag is `false` — not `true` as the claim states — and
whose 1000 ms `retryAfterMs` is carried in the `RuleResult` but does not
reach the combined decision's `retryAfterMs`, which stays 0. -/
theorem evaluateRule_challenge_denied_cex :
    evaluateRuleM (⟨fun s _ => (.ok none, s), fun s _ _ _ => (.ok (), s)⟩ : StoreOps Unit)
      defaultExtract 0
      ⟨"login", [⟨"per_ip", ["ip"], 1, 1, 1000, some 2, some .challenge, some 5000⟩], .closed⟩
      ⟨"per_ip", ["ip"], 1, 1, 1000, some 2, some .challenge, some 5000⟩
      { action := "login", ip := some "1.2.3.4" } ()
      = (.ok { ruleName := "per_ip"
               key := "login:per_ip:ip=1.2.3.4"
               allowed := false
               outcome := .CHALLENGE
               retryAfterMs := 1000
               remainingTokens := 1
               challenge := some "captcha_required" }, ()) ∧
    (combineRuleResults "login"
        [{ ruleName := "per_ip"
           key := "login:per_ip:ip=1.2.3.4"
           allowed := false
           outcome := .CHALLENGE
           retryAfterMs := 1000
           remainingTokens := 1
           challenge := some "captcha_required" }] []).retryAfterMs = 0 := by
  exact ⟨by decide, by decide⟩

/-- **C3 (amended).** For every rule with `mode = challenge` whose consume
attempt is denied, `evaluateRule` produces a `RuleResult` with outcome
CHALLENGE whose `allowed` flag is `false` (the rule-level result reports
the denial) and which carries the rule's computed `retryAfterMs`; the
combined decision over such results has `allowed = true` and outcome
CHALLENGE, but its own `retryAfterMs` does not include the challenge
rule's delay (it stays 0 absent BLOCKED results). -/
theorem evaluateRule_challenge_denied {σ : Type} (ops : StoreOps σ)
    (extractor : KeyExtractor) (now : ℚ) (policy : ActionPolicy)
    (rule : RateLimitRule) (context : RequestContext)
    (s s₁ s₂ : σ) (key : String) (found : Option TokenBucketState)
    (hkey : buildKey policy.id rule context extractor = some key)
    (hmode : rule.mode.getD .block = .challenge)
    (hget : ops.get s key = (.ok found, s₁))
    (hset : ops.set s₁ key (engineConsume rule now found).bucketState
        (calculateDefaultTtl rule) = (.ok (), s₂))
    (hdenied : (engineConsume rule now found).allowed = false) :
    evaluateRuleM ops extractor now policy rule context s =
      (.ok { ruleName := rule.name
             key := key
             allowed := false
             outcome := .CHALLENGE
             retryAfterMs := (engineConsume rule now found).retryAfterMs
             remainingTokens := (engineConsume rule now found).remainingTokens
             challenge := some "captcha_required" }, s₂) ∧
    (combineRuleResults policy.id
        [{ ruleName := rule.name
           key := key
           allowed := false
           outcome := .CHALLENGE
           retryAfterMs := (engineConsume rule now found).retryAfterMs
           remainingTokens := (engineConsume rule now found).remainingTokens
           challenge := some "captcha_required" }] []).allowed = true ∧
    (combineRuleResults policy.id
        [{ ruleName := rule.name
           key := key
           allowed := false
           outcome := .CHALLENGE
           retryAfterMs := (engineConsume rule now found).retryAfterMs
           remainingTokens := (engineConsume rule now found).remainingTokens
           challenge := some "captcha_required" }] []).outcome = .CHALLENGE ∧
    (combineRuleResults policy.id
        [{ ruleName := rule.name
           key := key
           allowed := false
           outcome := .CHALLENGE
           retryAfterMs := (engineConsume rule now found).retryAfterMs
           remainingTokens := (engineConsume rule now found).remainingTokens
           challenge := some "captcha_required" }] []).retryAfterMs = 0 := by
  unfold engineConsume at hset hdenied ⊢
  refine ⟨?_, ?_, ?_, ?_⟩
  · unfold evaluateRuleM
    simp only [hkey]
    simp only [hget]
    simp only [hset]
    simp only [hmode, hdenied]
    simp
  · simp [combineRuleResults, combineStep, jsOrElse, truthy]
  · simp [combineRuleResults, combineStep, jsOrElse, truthy]
  · simp [combineRuleResults, combineStep, jsOrElse, truthy]

unseal Rat.add Rat.sub Rat.mul Rat.inv in
/-- Concrete instantiation of `evaluateRule_challenge_denied`: the
challenge rule of the counterexample, with all hypotheses checked by
computation. -/
theorem evaluateRule_challenge_denied_witness :
    buildKey "login" ⟨"per_ip", ["ip"], 1, 1, 1000, some 2, some .challenge, some 5000⟩
      { action := "login", ip := some "1.2.3.4" } defaultExtract
      = some "login:per_ip:ip=1.2.3.4" ∧
    ((⟨"per_ip", ["ip"], 1, 1, 1000, some 2, some .challenge,
        some 5000⟩ : RateLimitRule).mode.getD .block = .challenge) ∧
    ((engineConsume ⟨"per_ip", ["ip"], 1, 1, 1000, some 2, some .challenge, some 5000⟩
        0 none).allowed = false) ∧
    evaluateRuleM
        (⟨fun s _ => (.ok none, s), fun s _ _ _ => (.ok (), s)⟩ : StoreOps Unit)
        defaultExtract 0
        ⟨"login", [⟨"per_ip", ["ip"], 1, 1, 1000, some 2, some .challenge, some 5000⟩],
          .closed⟩
        ⟨"per_ip", ["ip"], 1, 1, 1000, some 2, some .challenge, some 5000⟩
        { action := "login", ip := some "1.2.3.4" } ()
      = (.ok { ruleName := "per_ip"
               key := "login:per_ip:ip=1.2.3.4"
               allowed := false
               outcome := .CHALLENGE
               retryAfterMs :=
                 (engineConsume
                   ⟨"per_ip", ["ip"], 1, 1, 1000, some 2, some .challenge, some 5000⟩
                   0 none).retryAfterMs
               remainingTokens :=
                 (engineConsume
                   ⟨"per_ip", ["ip"], 1, 1, 1000, some 2, some .challenge, some 5000⟩
                   0 none).remainingTokens
               challenge := some "captcha_required" }, ()) := by
  refine ⟨by decide, by decide, by decide, ?_⟩
  exact (evaluateRule_challenge_denied
    (⟨fun s _ => (.ok none, s), fun s _ _ _ => (.ok (), s)⟩ : StoreOps Unit)
    defaultExtract 0
    ⟨"login", [⟨"per_ip", ["ip"], 1, 1, 1000, some 2, some .challenge, some 5000⟩], .closed⟩
    ⟨"per_ip", ["ip"], 1, 1, 1000, some 2, some .challenge, some 5000⟩
    { action := "login", ip := some "1.2.3.4" } () () ()
    "login:per_ip:ip=1.2.3.4" none
    (by decide) (by decide) (by decide) (by decide) (by decide)).1

/-! ## Memory store (`memoryStore.ts`) -/

/-- `StoreEntry` from `memoryStore.ts`. -/
structure StoreEntry where
  state : TokenBucketState
  lastAccessedAt : ℚ
deriving DecidableEq, Repr

/-- `MemoryStoreOptions` (all fields resolved against defaults; counts are
naturals). -/
structure MemoryStoreOptions where
  sweepIntervalMs : ℚ
  highWaterMark : ℕ
  evictionCount : ℕ
deriving DecidableEq, Repr

/-- An entry is expired at `now` (`now >= entry.state.expiresAt`). -/
def entryExpired (now : ℚ) (e : String × StoreEntry) : Bool :=
  now ≥ e.2.state.expiresAt

/-- Phase 1 of `MemoryStore.evictEntries`: iterate the map (insertion
order), stopping as soon as the current size is at or below the target,
deleting the expired entries encountered. `kept` holds the already-visited
surviving entries in reverse order. -/
def phase1Go (now : ℚ) (target : ℕ) (kept : List (String × StoreEntry)) :
    List (String × StoreEntry) → List (String × StoreEntry)
  | [] => kept.reverse
  | e :: rest =>
    if kept.length + (e :: rest).length ≤ target then kept.reverse ++ e :: rest
    else if entryExpired now e then phase1Go now target kept rest
    else phase1Go now target (e :: kept) rest

/-- The comparator of phase 2's sort: ascending `lastAccessedAt`. -/
def accessLe (a b : String × StoreEntry) : Prop :=
  a.2.lastAccessedAt ≤ b.2.lastAccessedAt

instance : DecidableRel accessLe := fun a b =>
  inferInstanceAs (Decidable (a.2.lastAccessedAt ≤ b.2.lastAccessedAt))

instance : IsTotal (String × StoreEntry) accessLe :=
  ⟨fun a b => le_total a.2.lastAccessedAt b.2.lastAccessedAt⟩

instance : IsTrans (String × StoreEntry) accessLe :=
  ⟨fun _ _ _ hab hbc => le_trans hab hbc⟩

/-- `MemoryStore.evictEntries`: phase 1 deletes expired entries until the
target size is reached; phase 2, if still over target, deletes the
`size − target` entries with the smallest `lastAccessedAt` (stable
ascending sort, as JS `Array.prototype.sort`). -/
def evictEntries (opts : MemoryStoreOptions) (now : ℚ)
    (store : List (String × StoreEntry)) : List (String × StoreEntry) :=
  let targetSize := opts.highWaterMark - opts.evictionCount
  let afterPhase1 := phase1Go now targetSize [] store
  if afterPhase1.length > targetSize then
    let sorted := List.insertionSort accessLe afterPhase1
    let toEvict := afterPhase1.length - targetSize
    let delKeys := (sorted.take toEvict).map Prod.fst
    afterPhase1.filter (fun e => e.1 ∉ delKeys)
  else afterPhase1

/-- `MemoryStore.set` on the raw map: update in place if present,
otherwise evict when at or over the high-water mark, then append. -/
def memSet (opts : MemoryStoreOptions) (now : ℚ) (key : String)
    (state : TokenBucketState) (store : List (String × StoreEntry)) :
    List (String × StoreEntry) :=
  if (store.lookup key).isSome then
    store.map fun e => if e.1 = key then (key, ⟨state, now⟩) else e
  else
    let store₁ :=
      if store.length ≥ opts.highWaterMark then evictEntries opts now store
      else store
    store₁ ++ [(key, ⟨state, now⟩)]

theorem phase1Go_sublist (now : ℚ) (target : ℕ) :
    ∀ (rest kept : List (String × StoreEntry)),
      List.Sublist (phase1Go now target kept rest) (kept.reverse ++ rest) := by
  intro rest
  induction rest with
  | nil => intro kept; simp [phase1Go]
  | cons e rs ih =>
    intro kept
    simp only [phase1Go]
    by_cases h1 : kept.length + (e :: rs).length ≤ target
    · rw [if_pos h1]
    · rw [if_neg h1]
      by_cases h2 : entryExpired now e = true
      · rw [if_pos h2]
        refine (ih kept).trans ?_
        exact List.Sublist.append_left (List.sublist_cons_self e rs) kept.reverse
      · rw [if_neg h2]
        have h := ih (e :: kept)
        rw [List.reverse_cons, List.append_assoc] at h
        exact h

theorem phase1Go_keeps_unexpired (now : ℚ) (target : ℕ) :
    ∀ (rest kept : List (String × StoreEntry)) (e : String × StoreEntry),
      entryExpired now e = false → e ∈ kept.reverse ++ rest →
      e ∈ phase1Go now target kept rest := by
  intro rest
  induction rest with
  | nil =>
    intro kept e _ hmem
    simpa [phase1Go] using hmem
  | cons f rs ih =>
    intro kept e hexp hmem
    simp only [phase1Go]
    by_cases h1 : kept.length + (f :: rs).length ≤ target
    · rw [if_pos h1]; exact hmem
    · rw [if_neg h1]
      by_cases h2 : entryExpired now f = true
      · rw [if_pos h2]
        apply ih kept e hexp
        rcases List.mem_append.mp hmem with h | h
        · exact List.mem_append.mpr (Or.inl h)
        · rcases List.mem_cons.mp h with h | h
          · exfalso; rw [h, h2] at hexp; exact Bool.noConfusion hexp
          · exact List.mem_append.mpr (Or.inr h)
      · rw [if_neg h2]
        apply ih (f :: kept) e hexp
        rw [List.reverse_cons, List.append_assoc]
        exact hmem

theorem phase1Go_all_unexpired (now : ℚ) (target : ℕ) :
    ∀ (rest kept : List (String × StoreEntry)),
      (∀ e ∈ kept, entryExpired now e = false) →
      target < (phase1Go now target kept rest).length →
      ∀ e ∈ phase1Go now target kept rest, entryExpired now e = false := by
  intro rest
  induction rest with
  | nil =>
    intro kept hkept _ e hmem
    simp only [phase1Go] at hmem
    exact hkept e (List.mem_reverse.mp hmem)
  | cons f rs ih =>
    intro kept hkept hlen e hmem
    simp only [phase1Go] at hlen hmem
    by_cases h1 : kept.length + (f :: rs).length ≤ target
    · rw [if_pos h1] at hlen
      exfalso
      have : (kept.reverse ++ f :: rs).length = kept.length + (f :: rs).length := by
        simp
      omega
    · rw [if_neg h1] at hlen hmem
      by_cases h2 : entryExpired now f = true
      · rw [if_pos h2] at hlen hmem
        exact ih kept hkept hlen e hmem
      · rw [if_neg h2] at hlen hmem
        rw [Bool.not_eq_true] at h2
        refine ih (f :: kept) ?_ hlen e hmem
        intro g hg
        rcases List.mem_cons.mp hg with h | h
        · rw [h]; exact h2
        · exact hkept g h

theorem evictEntries_eq (opts : MemoryStoreOptions) (now : ℚ)
    (store : List (String × StoreEntry)) :
    evictEntries opts now store =
      if (phase1Go now (opts.highWaterMark - opts.evictionCount) [] store).length
          > opts.highWaterMark - opts.evictionCount then
        (phase1Go now (opts.highWaterMark - opts.evictionCount) [] store).filter
          (fun e => e.1 ∉ ((List.insertionSort accessLe
              (phase1Go now (opts.highWaterMark - opts.evictionCount) [] store)).take
            ((phase1Go now (opts.highWaterMark - opts.evictionCount) [] store).length
              - (opts.highWaterMark - opts.evictionCount))).map Prod.fst)
      else phase1Go now (opts.highWaterMark - opts.evictionCount) [] store := rfl

theorem evictEntries_spec (opts : MemoryStoreOptions) (now : ℚ)
    (store : List (String × StoreEntry))
    (hnodup : (store.map Prod.fst).Nodup) :
    (evictEntries opts now store).length
        ≤ opts.highWaterMark - opts.evictionCount ∧
    ((∃ e ∈ store, entryExpired now e = false ∧ e ∉ evictEntries opts now store) →
      ∀ e ∈ store, entryExpired now e = true → e ∉ evictEntries opts now store) ∧
    (∀ d ∈ store, entryExpired now d = false → d ∉ evictEntries opts now store →
      ∀ k ∈ evictEntries opts now store,
        d.2.lastAccessedAt ≤ k.2.lastAccessedAt) := by
  have hsub : List.Sublist
      (phase1Go now (opts.highWaterMark - opts.evictionCount) [] store) store := by
    simpa using phase1Go_sublist now (opts.highWaterMark - opts.evictionCount) store []
  have hnodup1 : ((phase1Go now (opts.highWaterMark - opts.evictionCount) [] store).map
      Prod.fst).Nodup :=
    List.Nodup.sublist (List.Sublist.map Prod.fst hsub) hnodup
  rw [evictEntries_eq]
  set t := opts.highWaterMark - opts.evictionCount with ht
  set l1 := phase1Go now t [] store with hl1
  by_cases hgt : l1.length > t
  · rw [if_pos hgt]
    have hperm : List.Perm (List.insertionSort accessLe l1) l1 :=
      List.perm_insertionSort accessLe l1
    have hsorted : List.Sorted accessLe (List.insertionSort accessLe l1) :=
      List.sorted_insertionSort accessLe l1
    set sorted := List.insertionSort accessLe l1 with hsorteddef
    set toE := l1.length - t with htoE
    set delKeys := (sorted.take toE).map Prod.fst with hdel
    have hAB : sorted.take toE ++ sorted.drop toE = sorted := List.take_append_drop _ _
    have hnodupS : (sorted.map Prod.fst).Nodup :=
      ((hperm.map Prod.fst).nodup_iff).mpr hnodup1
    have hdisj : ∀ e ∈ sorted.drop toE, e.1 ∉ delKeys := by
      intro e he hin
      rw [← hAB, List.map_append] at hnodupS
      exact (List.nodup_append.mp hnodupS).2.2 hin (List.mem_map_of_mem Prod.fst he)
    have hfilterA : (sorted.take toE).filter (fun e => e.1 ∉ delKeys) = [] := by
      rw [List.filter_eq_nil_iff]
      intro a ha
      simp only [decide_eq_true_eq, not_not]
      exact List.mem_map_of_mem Prod.fst ha
    have hfilterB : (sorted.drop toE).filter (fun e => e.1 ∉ delKeys)
        = sorted.drop toE := by
      rw [List.filter_eq_self]
      intro a ha
      simp only [decide_eq_true_eq]
      exact hdisj a ha
    have hlen : (l1.filter (fun e => e.1 ∉ delKeys)).length = t := by
      have h1 : List.Perm (sorted.filter (fun e => e.1 ∉ delKeys))
          (l1.filter (fun e => e.1 ∉ delKeys)) := hperm.filter _
      rw [← h1.length_eq, ← hAB, List.filter_append, hfilterA, hfilterB,
        List.nil_append, List.length_drop]
      have hsl : sorted.length = l1.length := hperm.length_eq
      omega
    refine ⟨?_, ?_, ?_⟩
    · rw [hlen]
    · intro _ e he hexp hin
      have hel1 : e ∈ l1 := (List.mem_filter.mp hin).1
      have := phase1Go_all_unexpired now t store []
        (fun g hg => absurd hg (List.not_mem_nil g)) hgt e hel1
      rw [hexp] at this
      exact Bool.noConfusion this
    · intro d hd hdunexp hdnotin k hk
      have hdl1 : d ∈ l1 :=
        phase1Go_keeps_unexpired now t store [] d hdunexp (by simpa using hd)
      have hdp : d.1 ∈ delKeys := by
        by_contra hdp
        exact hdnotin (List.mem_filter.mpr ⟨hdl1, by simpa using hdp⟩)
      obtain ⟨a, ha, hak⟩ := List.mem_map.mp hdp
      have hasort : a ∈ sorted := by
        rw [← hAB]; exact List.mem_append_left _ ha
      have hal1 : a ∈ l1 := hperm.mem_iff.mp hasort
      have had : a = d := List.inj_on_of_nodup_map hnodup1 hal1 hdl1 hak
      have hdtake : d ∈ sorted.take toE := had ▸ ha
      have hkl : k ∈ l1 := (List.mem_filter.mp hk).1
      have hkp : k.1 ∉ delKeys := by simpa using (List.mem_filter.mp hk).2
      have hksort : k ∈ sorted := hperm.mem_iff.mpr hkl
      have hkdrop : k ∈ sorted.drop toE := by
        rw [← hAB] at hksort
        rcases List.mem_append.mp hksort with h | h
        · exact absurd (List.mem_map_of_mem Prod.fst h) hkp
        · exact h
      have hcross := (List.pairwise_append.mp (by rw [hAB]; exact hsorted)).2.2
      exact hcross d hdtake k hkdrop
  · rw [if_neg hgt]
    refine ⟨not_lt.mp hgt, ?_, ?_⟩
    · rintro ⟨e, he, heunexp, henotin⟩
      exact absurd
        (phase1Go_keeps_unexpired now t store [] e heunexp (by simpa using he)) henotin
    · intro d hd hdunexp hdnotin
      exact absurd
        (phase1Go_keeps_unexpired now t store [] d hdunexp (by simpa using hd)) hdnotin

/-! ## Claim C7: high-water-mark eviction -/

/-- **C7.** A `set` on a new key into a store at or over `highWaterMark`
(with distinct keys and a sane config) evicts toward
`highWaterMark − evictionCount` before appending the new entry, so the
resulting size is at most `highWaterMark − evictionCount + 1`; eviction
removes expired entries before any unexpired entry (if it deletes an
unexpired entry then every expired entry is deleted), and every unexpired
entry it deletes has `lastAccessedAt` at most that of every survivor
(oldest-touched first). -/
theorem memSet_eviction_spec (opts : MemoryStoreOptions) (now : ℚ) (key : String)
    (state : TokenBucketState) (store : List (String × StoreEntry))
    (hnodup : (store.map Prod.fst).Nodup)
    (hnew : store.lookup key = none)
    (hsize : opts.highWaterMark ≤ store.length)
    (_hec : opts.evictionCount ≤ opts.highWaterMark) :
    memSet opts now key state store
      = evictEntries opts now store ++ [(key, ⟨state, now⟩)] ∧
    (memSet opts now key state store).length
      ≤ opts.highWaterMark - opts.evictionCount + 1 ∧
    ((∃ e ∈ store, entryExpired now e = false ∧ e ∉ evictEntries opts now store) →
      ∀ e ∈ store, entryExpired now e = true → e ∉ evictEntries opts now store) ∧
    (∀ d ∈ store, entryExpired now d = false → d ∉ evictEntries opts now store →
      ∀ k ∈ evictEntries opts now store,
        d.2.lastAccessedAt ≤ k.2.lastAccessedAt) := by
  have hspec := evictEntries_spec opts now store hnodup
  have heq : memSet opts now key state store
      = evictEntries opts now store ++ [(key, ⟨state, now⟩)] := by
    unfold memSet
    rw [hnew]
    rw [if_neg (by simp)]
    rw [if_pos hsize]
  refine ⟨heq, ?_, hspec.2.1, hspec.2.2⟩
  rw [heq, List.length_append]
  have h1 := hspec.1
  simp only [List.length_singleton]
  omega

/-- Concrete instantiation of `memSet_eviction_spec`: high-water mark 3,
eviction count 1, one expired entry, inserting a fourth key. -/
theorem memSet_eviction_spec_witness :
    (([("a", ⟨⟨5, 0, 0, 100⟩, 10⟩), ("b", ⟨⟨5, 0, 0, 9999⟩, 5⟩),
       ("c", ⟨⟨5, 0, 0, 9999⟩, 7⟩)] :
        List (String × StoreEntry)).map Prod.fst).Nodup ∧
    (([("a", ⟨⟨5, 0, 0, 100⟩, 10⟩), ("b", ⟨⟨5, 0, 0, 9999⟩, 5⟩),
       ("c", ⟨⟨5, 0, 0, 9999⟩, 7⟩)] :
        List (String × StoreEntry)).lookup "d" = none) ∧
    (memSet ⟨60000, 3, 1⟩ 200 "d" ⟨5, 200, 200, 5200⟩
        [("a", ⟨⟨5, 0, 0, 100⟩, 10⟩), ("b", ⟨⟨5, 0, 0, 9999⟩, 5⟩),
         ("c", ⟨⟨5, 0, 0, 9999⟩, 7⟩)]).length ≤ 3 - 1 + 1 := by
  refine ⟨by decide, by decide, ?_⟩
  exact (memSet_eviction_spec ⟨60000, 3, 1⟩ 200 "d" ⟨5, 200, 200, 5200⟩
    [("a", ⟨⟨5, 0, 0, 100⟩, 10⟩), ("b", ⟨⟨5, 0, 0, 9999⟩, 5⟩),
     ("c", ⟨⟨5, 0, 0, 9999⟩, 7⟩)]
    (by decide) (by decide) (by decide) (by decide)).2.1

/-- The full `MemoryStore` state: the map, the shutdown flag, and whether
the sweeper timer is active. -/
structure MemState where
  store : List (String × StoreEntry)
  isShutdown : Bool
  sweepTimer : Bool
deriving DecidableEq, Repr

/-- `MemoryStore.shutdown`: a no-op once shut down; otherwise sets the
flag, stops the timer and clears the map. It never throws. -/
def shutdownOp (s : MemState) : Except String Unit × MemState :=
  if s.isShutdown then (.ok (), s)
  else (.ok (), { store := [], isShutdown := true, sweepTimer := false })

/-- `MemoryStore.sweep`: a no-op when shut down; otherwise deletes every
expired entry. -/
def sweepOp (now : ℚ) (s : MemState) : MemState :=
  if s.isShutdown then s
  else { s with store := s.store.filter fun e => ¬ entryExpired now e }

/-- The data operations of the store interface, with the `Date.now()`
value observed by each call. -/
inductive StoreCall where
  | getC (now : ℚ) (key : String)
  | setC (now : ℚ) (key : String) (state : TokenBucketState) (ttlMs : ℚ)
  | deleteC (key : String)
  | hasC (now : ℚ) (key : String)
  | sizeC
  | clearC
deriving DecidableEq, Repr

/-- Results of the data operations. -/
inductive CallResult where
  | unitR
  | stateR (value : Option TokenBucketState)
  | boolR (b : Bool)
  | natR (n : ℕ)
deriving DecidableEq, Repr

/-- `Map.delete key` (keys are unique, so filtering is deletion). -/
def eraseKey (store : List (String × StoreEntry)) (key : String) :
    List (String × StoreEntry) :=
  store.filter fun e => e.1 ≠ key

/-- `MemoryStore.get`/`set`/`delete`/`has`/`size`/`clear`, each guarded by
`checkShutdown` (throwing the store-is-shut-down error). `get` performs
lazy expiry and refreshes `lastAccessedAt`; `has` performs lazy expiry
only. -/
def runCall (opts : MemoryStoreOptions) (c : StoreCall) (s : MemState) :
    Except String CallResult × MemState :=
  if s.isShutdown then (.error "MemoryStore has been shutdown", s)
  else
    match c with
    | .getC now key =>
      match s.store.lookup key with
      | none => (.ok (.stateR none), s)
      | some entry =>
        if now ≥ entry.state.expiresAt then
          (.ok (.stateR none), { s with store := eraseKey s.store key })
        else
          (.ok (.stateR (some entry.state)),
            { s with store := s.store.map fun e =>
                if e.1 = key then (key, { e.2 with lastAccessedAt := now }) else e })
    | .setC now key state _ttlMs =>
      (.ok .unitR, { s with store := memSet opts now key state s.store })
    | .deleteC key => (.ok .unitR, { s with store := eraseKey s.store key })
    | .hasC now key =>
      match s.store.lookup key with
      | none => (.ok (.boolR false), s)
      | some entry =>
        if now ≥ entry.state.expiresAt then
          (.ok (.boolR false), { s with store := eraseKey s.store key })
        else (.ok (.boolR true), s)
    | .sizeC => (.ok (.natR s.store.length), s)
    | .clearC => (.ok .unitR, { s with store := [] })

/-- Any store call, for sequencing histories: a data call, a `shutdown`,
or a timer `sweep`. -/
inductive AnyCall where
  | call (c : StoreCall)
  | shutdownCall
  | sweepCall (now : ℚ)
deriving DecidableEq, Repr

/-- Apply one call, keeping only the state. -/
def runAny (opts : MemoryStoreOptions) (a : AnyCall) (s : MemState) : MemState :=
  match a with
  | .call c => (runCall opts c s).2
  | .shutdownCall => (shutdownOp s).2
  | .sweepCall now => sweepOp now s

/-- Run a sequence of calls. -/
def runSeq (opts : MemoryStoreOptions) (calls : List AnyCall) (s : MemState) :
    MemState :=
  calls.foldl (fun st a => runAny opts a st) s

theorem shutdownOp_isShutdown (s : MemState) : (shutdownOp s).2.isShutdown = true := by
  unfold shutdownOp
  by_cases h : s.isShutdown = true
  · rw [if_pos h]; exact h
  · rw [if_neg h]

theorem shutdownOp_noop (s : MemState) (h : s.isShutdown = true) :
    shutdownOp s = (.ok (), s) := by
  unfold shutdownOp
  rw [if_pos h]

theorem runCall_shutdown (opts : MemoryStoreOptions) (c : StoreCall) (s : MemState)
    (h : s.isShutdown = true) :
    runCall opts c s = (.error "MemoryStore has been shutdown", s) := by
  unfold runCall
  rw [if_pos h]

theorem runAny_preserves_shutdown (opts : MemoryStoreOptions) (a : AnyCall)
    (s : MemState) (h : s.isShutdown = true) : runAny opts a s = s := by
  cases a with
  | call c => simp [runAny, runCall, h]
  | shutdownCall => simp [runAny, shutdownOp, h]
  | sweepCall now => simp [runAny, sweepOp, h]

theorem runSeq_shutdown (opts : MemoryStoreOptions) (calls : List AnyCall)
    (s : MemState) (h : s.isShutdown = true) : runSeq opts calls s = s := by
  induction calls with
  | nil => rfl
  | cons a rest ih =>
    show runSeq opts rest (runAny opts a s) = s
    rw [runAny_preserves_shutdown opts a s h]
    exact ih

/-! ## Claim C9: idempotent shutdown, deterministic failure afterwards -/

/-- **C9.** `shutdown` is idempotent — a second call after one shutdown
returns successfully and changes nothing — and after a shutdown every
subsequent `get`, `set`, `delete`, `has`, `size` or `clear`, in every
state reachable by any further sequence of calls, fails with the
store-is-shut-down error and leaves the state unchanged. -/
theorem shutdown_idempotent_and_fails (opts : MemoryStoreOptions) (s : MemState) :
    shutdownOp (shutdownOp s).2 = (.ok (), (shutdownOp s).2) ∧
    ∀ (calls : List AnyCall) (c : StoreCall),
      runCall opts c (runSeq opts calls (shutdownOp s).2)
        = (.error "MemoryStore has been shutdown",
           runSeq opts calls (shutdownOp s).2) := by
  have hsd : (shutdownOp s).2.isShutdown = true := shutdownOp_isShutdown s
  constructor
  · exact shutdownOp_noop _ hsd
  · intro calls c
    rw [runSeq_shutdown opts calls _ hsd]
    exact runCall_shutdown opts c _ hsd

/-! ## Claim C10: the ttl argument of `set` is inert -/

/-- **C10.** `set` ignores its `ttlMs` argument entirely: two `set` calls
differing only in `ttlMs` return the same result and leave identical
states, and every later call sequence — including `get`, `has` and
`sweep` — behaves identically on the two resulting states; expiry is
governed solely by the `expiresAt` inside the stored bucket state. -/
theorem set_ttl_irrelevant (opts : MemoryStoreOptions) (now : ℚ) (key : String)
    (state : TokenBucketState) (t1 t2 : ℚ) (s : MemState) :
    runCall opts (.setC now key state t1) s = runCall opts (.setC now key state t2) s ∧
    ∀ (calls : List AnyCall) (c : StoreCall),
      runCall opts c (runSeq opts calls (runCall opts (.setC now key state t1) s).2)
        = runCall opts c (runSeq opts calls (runCall opts (.setC now key state t2) s).2) ∧
    ∀ (now' : ℚ),
      sweepOp now' (runSeq opts calls (runCall opts (.setC now key state t1) s).2)
        = sweepOp now' (runSeq opts calls (runCall opts (.setC now key state t2) s).2) := by
  have h : runCall opts (.setC now key state t1) s
      = runCall opts (.setC now key state t2) s := rfl
  exact ⟨h, fun calls c => by rw [h]; exact ⟨rfl, fun _ => rfl⟩⟩
